import Mathlib

/-!
Verification of the per-connection proxy handler of `proxy/handler.go`
(`overlord` repository): the `handle` cycle (decode, forwarder-state check,
forward, encode, flush, reset), the adaptive batch allocator
`allocMaxConcurrent`, and the close path `deferHandle` / `closeWithError`.

The Go code is embedded shallowly:

* Messages are identified by natural numbers; a batch is a `List Nat`
  (its length is the batch capacity).  `proto.GetMsgs n` is modelled by
  drawing `n` fresh identifiers from a counter.
* Forwarder references are identified by the order of acquisition
  (`p.GetForwarder` returns a fresh reference identifier each time).
* Every externally visible effect of the loop body is recorded in a trace
  of events `Ev` (acquire/release of a forwarder reference, a `Forward`
  call, per-message `Encode`, `Flush`, per-message `Reset`,
  `PutMsgs` back to the pool, `RemoveConnection`, `closeWithError`,
  `prom.ConnIncr`).
* The outcome of each external call the loop makes (decode, the forwarder
  state observation, forward, per-message encode, flush) is supplied by an
  oracle `CycleEvent`; quantifying over oracles quantifies over all
  behaviours of the external collaborators.
* `closeWithError`'s compare-and-swap on the `closed` flag is modelled as
  a test-and-set on a `Bool`; the CAS makes the transition atomic, so
  concurrent invocations are modelled by sequential composition in an
  arbitrary order with arbitrary arguments.
* Go errors are `Option Nat` (`none` is the `nil` error).
-/

namespace Overlord

/-- Events: the externally visible effects of the handler. -/
inductive Ev
  | acquire (f : Nat) (cid : Nat)
  | release (f : Nat)
  | forwardCall (f : Nat) (ms : List Nat)
  | encode (m : Nat)
  | flushOk
  | flushAttempt
  | reset (m : Nat)
  | putMsgs (ms : List Nat)
  | removeConn
  | close (e : Option Nat)
  | connIncr
  deriving DecidableEq, Repr

/-- Result of `pc.Decode`: either the count of decoded messages (the codec
fills a prefix of the batch) or an error. -/
inductive DecodeRes
  | ok (k : Nat)
  | err (e : Nat)
  deriving DecidableEq, Repr

/-- Oracle for one iteration of the `handle` loop: the outcomes of the
external calls made during that iteration. `encodeErr = some (i, e)` means
`pc.Encode` fails with error `e` on the message at index `i` of the decoded
subsequence (no failure if `i` is out of range). -/
structure CycleEvent where
  decode : DecodeRes
  fwdClosed : Bool
  forwardErr : Option Nat
  encodeErr : Option (Nat × Nat)
  flushErr : Option Nat
  deriving DecidableEq, Repr

/-- The handler's loop state: the current batch (`messages` in the Go
code), the current forwarder reference, and the fresh-identifier
counters. -/
structure HState where
  batch : List Nat
  forwarder : Nat
  nextFwd : Nat
  nextMsg : Nat
  deriving DecidableEq, Repr

/-- The handler's identity relevant to the loop: `ClusterID` and the
`closeWhenChange` policy. -/
structure HandlerCfg where
  clusterID : Nat
  closeWhenChange : Bool
  deriving DecidableEq, Repr

/-- Go global `concurrent` (base batch capacity / growth factor). -/
def concurrent : Nat := 2

/-- Go global `maxConcurrent` (batch capacity cap). -/
def maxConcurrent : Nat := 1024

/-- The `alloc` local of `Handler.allocMaxConcurrent`: `lm` is the length
of the current batch, `lastCount` the previous decoded count. -/
def allocSize (lm : Nat) (lastCount : Nat) : Nat :=
  if lm = 0 then concurrent
  else if lm < maxConcurrent ∧ lm = lastCount then lm * concurrent
  else 0

/-- `Handler.allocMaxConcurrent`: decides the next batch.  `msgs` is the
current batch, `lastCount` the previous decoded count, `nextMsg` the fresh
message-identifier counter.  Returns the emitted trace, the next batch and
the new counter. -/
def allocMaxConcurrent (msgs : List Nat) (lastCount : Nat) (nextMsg : Nat) :
    List Ev × List Nat × Nat :=
  let alloc := allocSize msgs.length lastCount
  if alloc > 0 then
    ([Ev.putMsgs msgs], (List.range alloc).map (fun i => nextMsg + i), nextMsg + alloc)
  else
    ([], msgs, nextMsg)

/-- The encode loop over the decoded messages: encodes each message in
order until the oracle's failure index (if in range).  Returns the trace of
successful encodes and the error, if any. -/
def encodeLoop (msgs : List Nat) (encodeErr : Option (Nat × Nat)) :
    List Ev × Option Nat :=
  match encodeErr with
  | some (i, e) =>
      if i < msgs.length then ((msgs.take i).map Ev.encode, some e)
      else (msgs.map Ev.encode, none)
  | none => (msgs.map Ev.encode, none)

/-- Trace of `Handler.deferHandle`: `p.RemoveConnection`, `proto.PutMsgs`
on the full batch, then `closeWithError err`. -/
def deferTrace (batch : List Nat) (e : Option Nat) : List Ev :=
  [Ev.removeConn, Ev.putMsgs batch, Ev.close e]

/-- The tail of the loop body from the `Forward` call on: `pre` is the
trace emitted by the forwarder-state check, `g` the forwarder used for the
forward, `nf` the next fresh forwarder identifier.  Returns the emitted
trace and `some` next state, or `none` when the connection terminates. -/
def cycleForward (st : HState) (msgs : List Nat) (ev : CycleEvent)
    (pre : List Ev) (g : Nat) (nf : Nat) : List Ev × Option HState :=
  match ev.forwardErr with
  | some e =>
      (pre ++ [Ev.forwardCall g msgs] ++ deferTrace st.batch (some e) ++ [Ev.release g], none)
  | none =>
      let enc := encodeLoop msgs ev.encodeErr
      match enc.2 with
      | some e =>
          (pre ++ [Ev.forwardCall g msgs] ++ enc.1 ++ [Ev.flushAttempt] ++
            deferTrace st.batch (some e) ++ [Ev.release g], none)
      | none =>
          match ev.flushErr with
          | some e =>
              (pre ++ [Ev.forwardCall g msgs] ++ enc.1 ++
                deferTrace st.batch (some e) ++ [Ev.release g], none)
          | none =>
              let a := allocMaxConcurrent st.batch msgs.length st.nextMsg
              (pre ++ [Ev.forwardCall g msgs] ++ enc.1 ++ [Ev.flushOk] ++
                msgs.map Ev.reset ++ a.1,
               some ⟨a.2.1, g, nf, a.2.2⟩)

/-- One iteration of the `for` loop of `Handler.handle`. -/
def cycle (cfg : HandlerCfg) (st : HState) (ev : CycleEvent) :
    List Ev × Option HState :=
  match ev.decode with
  | DecodeRes.err e =>
      (deferTrace st.batch (some e) ++ [Ev.release st.forwarder], none)
  | DecodeRes.ok k =>
      let msgs := st.batch.take k
      if ev.fwdClosed then
        if cfg.closeWhenChange then
          ([Ev.release st.forwarder] ++ deferTrace st.batch none, none)
        else
          cycleForward st msgs ev
            [Ev.release st.forwarder, Ev.acquire st.nextFwd cfg.clusterID]
            st.nextFwd (st.nextFwd + 1)
      else
        cycleForward st msgs ev [] st.forwarder st.nextFwd

/-- The preamble of `Handler.handle`: the initial `allocMaxConcurrent`
call (with a nil batch and `lastCount = 0`) followed by the initial
`p.GetForwarder` (reference identifier 0). -/
def handleStart (cfg : HandlerCfg) : List Ev × HState :=
  let a := allocMaxConcurrent [] 0 0
  (a.1 ++ [Ev.acquire 0 cfg.clusterID], ⟨a.2.1, 0, 1, a.2.2⟩)

/-- Runs the loop over a script of oracle events; stops early when the
connection terminates (`none`). -/
def runFrom (cfg : HandlerCfg) (st : HState) : List CycleEvent → List Ev × Option HState
  | [] => ([], some st)
  | ev :: evs =>
      match cycle cfg st ev with
      | (tr, none) => (tr, none)
      | (tr, some st2) =>
          let r := runFrom cfg st2 evs
          (tr ++ r.1, r.2)

/-- The whole of `Handler.handle` over a script of oracle events. -/
def handleRun (cfg : HandlerCfg) (script : List CycleEvent) : List Ev × Option HState :=
  let s := handleStart cfg
  let r := runFrom cfg s.2 script
  (s.1 ++ r.1, r.2)

/-- Is this event an acquisition of forwarder reference `f`? -/
@[simp] def isAcqOf (f : Nat) : Ev → Bool
  | Ev.acquire g _ => g == f
  | _ => false

/-- Is this event a release of forwarder reference `f`? -/
@[simp] def isRelOf (f : Nat) : Ev → Bool
  | Ev.release g => g == f
  | _ => false

/-- Number of acquisitions of forwarder reference `f` in a trace. -/
def acqCount (tr : List Ev) (f : Nat) : Nat := tr.countP (isAcqOf f)

/-- Number of releases of forwarder reference `f` in a trace. -/
def relCount (tr : List Ev) (f : Nat) : Nat := tr.countP (isRelOf f)

/-- The messages encoded (hence buffered for flushing), in order. -/
def encodesOf (tr : List Ev) : List Nat :=
  tr.filterMap fun e => match e with
    | Ev.encode m => some m
    | _ => none

/-- The `Forward` calls in a trace: forwarder reference and batch sent. -/
def forwardedOf (tr : List Ev) : List (Nat × List Nat) :=
  tr.filterMap fun e => match e with
    | Ev.forwardCall f ms => some (f, ms)
    | _ => none

/-- The errors passed to `closeWithError` in a trace, in order. -/
def closesOf (tr : List Ev) : List (Option Nat) :=
  tr.filterMap fun e => match e with
    | Ev.close e0 => some e0
    | _ => none

/-- The messages reset in a trace, in order. -/
def resetsOf (tr : List Ev) : List Nat :=
  tr.filterMap fun e => match e with
    | Ev.reset m => some m
    | _ => none

/-- The batches returned to the pool in a trace, in order. -/
def putsOf (tr : List Ev) : List (List Nat) :=
  tr.filterMap fun e => match e with
    | Ev.putMsgs ms => some ms
    | _ => none

/-- The state touched by `Handler.closeWithError`: the one-way `closed`
flag (`false` is `handlerOpening`, `true` is `handlerClosed`), the recorded
terminal error `h.err`, the process-wide connection counter `p.conns`, the
raw connection's closed flag, and the count of `prom.ConnDecr` calls. -/
structure CloserState where
  closed : Bool
  err : Option Nat
  conns : Int
  connClosed : Bool
  promDecr : Nat
  deriving DecidableEq, Repr

/-- `Handler.closeWithError`: the compare-and-swap of `closed` from
`handlerOpening` to `handlerClosed` guards all the side effects. -/
def closeWithError (st : CloserState) (e : Option Nat) : CloserState :=
  if st.closed = false then
    { closed := true
      err := e
      conns := st.conns - 1
      connClosed := true
      promDecr := st.promDecr + 1 }
  else st

/-- `Handler.deferHandle`: `p.RemoveConnection` and `proto.PutMsgs` happen
unconditionally, then `closeWithError` runs behind its guard.  Returns the
emitted trace (of the unguarded calls) and the new close state. -/
def deferHandle (st : CloserState) (batch : List Nat) (e : Option Nat) :
    List Ev × CloserState :=
  ([Ev.removeConn, Ev.putMsgs batch], closeWithError st e)

/-- `types.CacheType` is a string; the four recognised kinds are the four
constructors, and `unknownKind s` stands for any other string. -/
inductive CacheType
  | memcache
  | memcacheBinary
  | redis
  | redisCluster
  | unknownKind (s : String)
  deriving DecidableEq, Repr

/-- The protocol codec chosen by `NewHandler`'s `switch`. -/
inductive ProxyConnKind
  | memcacheConn
  | memcacheBinaryConn
  | redisConn
  | redisClusterConn
  deriving DecidableEq, Repr

/-- `types.ErrNoSupportCacheType`, the value carried by the `panic` of
`NewHandler`'s `default` branch (modelled as an error identifier). -/
def ErrNoSupportCacheType : Nat := 1

/-- The part of the `Handler` built by `NewHandler` that the claims need. -/
structure Handler where
  cacheType : CacheType
  pc : ProxyConnKind
  deriving DecidableEq, Repr

/-- `NewHandler`'s protocol `switch` followed by `prom.ConnIncr`.  The
`default` branch panics with `ErrNoSupportCacheType` before reaching
`prom.ConnIncr`; the panic is modelled as `Except.error`.  Returns the
emitted trace and the construction result. -/
def NewHandler (ct : CacheType) : List Ev × Except Nat Handler :=
  match ct with
  | CacheType.memcache =>
      ([Ev.connIncr], Except.ok ⟨ct, ProxyConnKind.memcacheConn⟩)
  | CacheType.memcacheBinary =>
      ([Ev.connIncr], Except.ok ⟨ct, ProxyConnKind.memcacheBinaryConn⟩)
  | CacheType.redis =>
      ([Ev.connIncr], Except.ok ⟨ct, ProxyConnKind.redisConn⟩)
  | CacheType.redisCluster =>
      ([Ev.connIncr], Except.ok ⟨ct, ProxyConnKind.redisClusterConn⟩)
  | CacheType.unknownKind _ =>
      ([], Except.error ErrNoSupportCacheType)

/-! ### Counting lemmas for acquire/release events -/

theorem countP_map_zero (p : Ev → Bool) (g : Nat → Ev)
    (h : ∀ m, p (g m) = false) (ms : List Nat) : (ms.map g).countP p = 0 := by
  induction ms with
  | nil => simp
  | cons a t ih => simp [List.countP_cons, h, ih]

@[simp] theorem relCount_append (a b : List Ev) (f : Nat) :
    relCount (a ++ b) f = relCount a f + relCount b f :=
  List.countP_append _ _ _

@[simp] theorem acqCount_append (a b : List Ev) (f : Nat) :
    acqCount (a ++ b) f = acqCount a f + acqCount b f :=
  List.countP_append _ _ _

@[simp] theorem relCount_map_encode (ms : List Nat) (f : Nat) :
    relCount (ms.map Ev.encode) f = 0 :=
  countP_map_zero _ _ (fun _ => rfl) ms

@[simp] theorem acqCount_map_encode (ms : List Nat) (f : Nat) :
    acqCount (ms.map Ev.encode) f = 0 :=
  countP_map_zero _ _ (fun _ => rfl) ms

@[simp] theorem relCount_map_reset (ms : List Nat) (f : Nat) :
    relCount (ms.map Ev.reset) f = 0 :=
  countP_map_zero _ _ (fun _ => rfl) ms

@[simp] theorem acqCount_map_reset (ms : List Nat) (f : Nat) :
    acqCount (ms.map Ev.reset) f = 0 :=
  countP_map_zero _ _ (fun _ => rfl) ms

theorem encodeLoop_fst_is_map (ms : List Nat) (o : Option (Nat × Nat)) :
    ∃ ms2 : List Nat, (encodeLoop ms o).1 = ms2.map Ev.encode := by
  cases o with
  | none => exact ⟨ms, rfl⟩
  | some p =>
      obtain ⟨i, e⟩ := p
      by_cases h : i < ms.length
      · refine ⟨ms.take i, ?_⟩
        rw [encodeLoop]
        simp [h]
      · refine ⟨ms, ?_⟩
        rw [encodeLoop]
        simp [h]

@[simp] theorem relCount_encodeLoop (ms : List Nat) (o : Option (Nat × Nat)) (f : Nat) :
    relCount (encodeLoop ms o).1 f = 0 := by
  obtain ⟨ms2, h⟩ := encodeLoop_fst_is_map ms o
  rw [h]; exact relCount_map_encode ms2 f

@[simp] theorem acqCount_encodeLoop (ms : List Nat) (o : Option (Nat × Nat)) (f : Nat) :
    acqCount (encodeLoop ms o).1 f = 0 := by
  obtain ⟨ms2, h⟩ := encodeLoop_fst_is_map ms o
  rw [h]; exact acqCount_map_encode ms2 f

theorem allocMaxConcurrent_fst (ms : List Nat) (lc n : Nat) :
    (allocMaxConcurrent ms lc n).1 = [] ∨
    (allocMaxConcurrent ms lc n).1 = [Ev.putMsgs ms] := by
  unfold allocMaxConcurrent
  by_cases h : allocSize ms.length lc > 0
  · simp [h]
  · simp [h]

@[simp] theorem relCount_alloc (ms : List Nat) (lc n f : Nat) :
    relCount (allocMaxConcurrent ms lc n).1 f = 0 := by
  rcases allocMaxConcurrent_fst ms lc n with h | h <;>
    simp [h, relCount, List.countP_cons, isRelOf]

@[simp] theorem acqCount_alloc (ms : List Nat) (lc n f : Nat) :
    acqCount (allocMaxConcurrent ms lc n).1 f = 0 := by
  rcases allocMaxConcurrent_fst ms lc n with h | h <;>
    simp [h, acqCount, List.countP_cons, isAcqOf]

/-- Invariant of the loop: the references acquired so far are exactly
`0, …, nextFwd - 1`, each acquired once; every one of them except the
currently held `forwarder` has been released exactly once, and the current
one not at all. -/
def FwdInv (tr : List Ev) (st : HState) : Prop :=
  st.forwarder < st.nextFwd ∧
  (∀ f, acqCount tr f = if f < st.nextFwd then 1 else 0) ∧
  (∀ f, relCount tr f = if f < st.nextFwd ∧ f ≠ st.forwarder then 1 else 0)

/-- Every reference was acquired at most once and released exactly as many
times as acquired. -/
def ReleasedOnce (tr : List Ev) : Prop :=
  ∀ f, acqCount tr f ≤ 1 ∧ relCount tr f = acqCount tr f

theorem FwdInv_le (tr : List Ev) (st : HState) (h : FwdInv tr st) (f : Nat) :
    acqCount tr f ≤ 1 ∧ relCount tr f ≤ acqCount tr f := by
  obtain ⟨_, hacq, hrel⟩ := h
  rw [hacq f, hrel f]
  constructor
  · split <;> omega
  · by_cases h1 : f < st.nextFwd <;> by_cases h2 : f = st.forwarder <;> simp [h1, h2]

theorem handleStart_eq (cfg : HandlerCfg) :
    handleStart cfg = ([Ev.putMsgs [], Ev.acquire 0 cfg.clusterID], ⟨[0, 1], 0, 1, 2⟩) := by
  rfl

theorem handleStart_inv (cfg : HandlerCfg) :
    FwdInv (handleStart cfg).1 (handleStart cfg).2 := by
  rw [handleStart_eq]
  refine ⟨Nat.zero_lt_one, fun f => ?_, fun f => ?_⟩ <;>
    simp [acqCount, relCount, List.countP_cons, isAcqOf, isRelOf] <;>
    split_ifs <;> omega

@[simp] theorem relCount_nil (f : Nat) : relCount [] f = 0 := rfl

@[simp] theorem acqCount_nil (f : Nat) : acqCount [] f = 0 := rfl

@[simp] theorem relCount_cons (e : Ev) (tr : List Ev) (f : Nat) :
    relCount (e :: tr) f = relCount tr f + (if isRelOf f e then 1 else 0) :=
  List.countP_cons _ _ _

@[simp] theorem acqCount_cons (e : Ev) (tr : List Ev) (f : Nat) :
    acqCount (e :: tr) f = acqCount tr f + (if isAcqOf f e then 1 else 0) :=
  List.countP_cons _ _ _

/-- Counts of acquire/release events emitted by `cycleForward` beyond its
`pre` prefix: terminating branches release `g` exactly once; no branch
acquires. -/
theorem cycleForward_counts (st : HState) (msgs : List Nat) (ev : CycleEvent)
    (pre : List Ev) (g nf f : Nat) :
    (relCount (cycleForward st msgs ev pre g nf).1 f =
      relCount pre f +
        (if (cycleForward st msgs ev pre g nf).2 = none ∧ g = f then 1 else 0)) ∧
    (acqCount (cycleForward st msgs ev pre g nf).1 f = acqCount pre f) := by
  rcases ev with ⟨dec, fc, fe, ee, fl⟩
  cases fe with
  | some e =>
      refine ⟨?_, ?_⟩ <;> simp [cycleForward, deferTrace]
  | none =>
      cases henc : (encodeLoop msgs ee).2 with
      | some e =>
          refine ⟨?_, ?_⟩ <;> simp [cycleForward, henc, deferTrace]
      | none =>
          cases fl with
          | some e =>
              refine ⟨?_, ?_⟩ <;> simp [cycleForward, henc, deferTrace]
          | none =>
              refine ⟨?_, ?_⟩ <;> simp [cycleForward, henc]

/-- The next state produced by a non-terminating `cycleForward`. -/
theorem cycleForward_some (st : HState) (msgs : List Nat) (ev : CycleEvent)
    (pre : List Ev) (g nf : Nat) (st2 : HState)
    (h : (cycleForward st msgs ev pre g nf).2 = some st2) :
    st2.forwarder = g ∧ st2.nextFwd = nf ∧
    st2.batch = (allocMaxConcurrent st.batch msgs.length st.nextMsg).2.1 := by
  rcases ev with ⟨dec, fc, fe, ee, fl⟩
  cases fe with
  | some e => simp [cycleForward] at h
  | none =>
      cases henc : (encodeLoop msgs ee).2 with
      | some e => simp [cycleForward, henc] at h
      | none =>
          cases fl with
          | some e => simp [cycleForward, henc] at h
          | none =>
              simp [cycleForward, henc] at h
              rw [← h]
              exact ⟨rfl, rfl, rfl⟩

/-- One iteration of the loop preserves the forwarder-reference
invariant; when the iteration terminates the connection, every acquired
reference has been released exactly once. -/
theorem cycle_inv (cfg : HandlerCfg) (st : HState) (ev : CycleEvent) (tr : List Ev)
    (h : FwdInv tr st) :
    (∀ st2, (cycle cfg st ev).2 = some st2 → FwdInv (tr ++ (cycle cfg st ev).1) st2) ∧
    ((cycle cfg st ev).2 = none → ReleasedOnce (tr ++ (cycle cfg st ev).1)) := by
  obtain ⟨hlt, hacq, hrel⟩ := h
  have hterm : ∀ (tail : List Ev),
      (∀ f, relCount tail f = if f = st.forwarder then 1 else 0) →
      (∀ f, acqCount tail f = 0) →
      ReleasedOnce (tr ++ tail) := by
    intro tail htr hta f
    have ha := hacq f
    have hr := hrel f
    refine ⟨?_, ?_⟩
    · simp only [acqCount_append, hta, ha]
      split_ifs <;> omega
    · simp only [acqCount_append, relCount_append, hta, htr f, ha, hr]
      split_ifs <;> omega
  rcases ev with ⟨dec, fc, fe, ee, fl⟩
  cases dec with
  | err e =>
      refine ⟨fun st2 h2 => absurd h2 (by simp [cycle]), fun _ => ?_⟩
      have hc : (cycle cfg st ⟨DecodeRes.err e, fc, fe, ee, fl⟩).1 =
          deferTrace st.batch (some e) ++ [Ev.release st.forwarder] := rfl
      rw [hc]
      refine hterm _ (fun f => ?_) (fun f => ?_) <;>
        simp [deferTrace] <;> split_ifs <;> omega
  | ok k =>
      cases fc with
      | true =>
          rcases cfg with ⟨cid, cw⟩
          cases cw with
          | true =>
              refine ⟨fun st2 h2 => absurd h2 (by simp [cycle]), fun _ => ?_⟩
              have hc : (cycle ⟨cid, true⟩ st ⟨DecodeRes.ok k, true, fe, ee, fl⟩).1 =
                  [Ev.release st.forwarder] ++ deferTrace st.batch none := rfl
              rw [hc]
              refine hterm _ (fun f => ?_) (fun f => ?_) <;>
                simp [deferTrace] <;> split_ifs <;> omega
          | false =>
              have hc : cycle ⟨cid, false⟩ st ⟨DecodeRes.ok k, true, fe, ee, fl⟩ =
                  cycleForward st (st.batch.take k) ⟨DecodeRes.ok k, true, fe, ee, fl⟩
                    [Ev.release st.forwarder, Ev.acquire st.nextFwd cid]
                    st.nextFwd (st.nextFwd + 1) := rfl
              rw [hc]
              set ev2 : CycleEvent := ⟨DecodeRes.ok k, true, fe, ee, fl⟩ with hev2
              set pre : List Ev :=
                [Ev.release st.forwarder, Ev.acquire st.nextFwd cid] with hpre
              have hcr := fun f =>
                (cycleForward_counts st (st.batch.take k) ev2 pre st.nextFwd (st.nextFwd + 1) f).1
              have hca := fun f =>
                (cycleForward_counts st (st.batch.take k) ev2 pre st.nextFwd (st.nextFwd + 1) f).2
              have hpre_r : ∀ f, relCount pre f = if f = st.forwarder then 1 else 0 := by
                intro f
                simp [hpre]
                split_ifs <;> omega
              have hpre_a : ∀ f, acqCount pre f = if f = st.nextFwd then 1 else 0 := by
                intro f
                simp [hpre]
                split_ifs <;> omega
              constructor
              · intro st2 h2
                obtain ⟨hf2, hn2, _⟩ := cycleForward_some _ _ _ _ _ _ _ h2
                refine ⟨?_, fun f => ?_, fun f => ?_⟩
                · omega
                · simp only [acqCount_append, hca f, hpre_a f, hacq f, hn2]
                  split_ifs <;> omega
                · simp only [relCount_append, hcr f, hpre_r f, hrel f, h2, hf2, hn2]
                  simp only [reduceCtorEq, false_and, if_false, add_zero]
                  split_ifs <;> omega
              · intro h2 f
                have ha := hacq f
                have hr := hrel f
                refine ⟨?_, ?_⟩
                · simp only [acqCount_append, hca f, hpre_a f, ha]
                  split_ifs <;> omega
                · simp only [acqCount_append, relCount_append, hca f, hcr f,
                    hpre_a f, hpre_r f, ha, hr, h2, true_and]
                  split_ifs <;> omega
      | false =>
          have hc : cycle cfg st ⟨DecodeRes.ok k, false, fe, ee, fl⟩ =
              cycleForward st (st.batch.take k) ⟨DecodeRes.ok k, false, fe, ee, fl⟩
                [] st.forwarder st.nextFwd := rfl
          rw [hc]
          set ev2 : CycleEvent := ⟨DecodeRes.ok k, false, fe, ee, fl⟩ with hev2
          have hcr := fun f =>
            (cycleForward_counts st (st.batch.take k) ev2 [] st.forwarder st.nextFwd f).1
          have hca := fun f =>
            (cycleForward_counts st (st.batch.take k) ev2 [] st.forwarder st.nextFwd f).2
          constructor
          · intro st2 h2
            obtain ⟨hf2, hn2, _⟩ := cycleForward_some _ _ _ _ _ _ _ h2
            refine ⟨?_, fun f => ?_, fun f => ?_⟩
            · omega
            · simp only [acqCount_append, hca f, acqCount_nil, add_zero, hacq f, hn2]
            · simp only [relCount_append, hcr f, relCount_nil, hrel f, h2, hf2, hn2]
              simp only [reduceCtorEq, false_and, if_false, add_zero, zero_add]
          · intro h2 f
            have ha := hacq f
            have hr := hrel f
            refine ⟨?_, ?_⟩
            · simp only [acqCount_append, hca f, acqCount_nil, add_zero, ha]
              split_ifs <;> omega
            · simp only [acqCount_append, relCount_append, hca f, hcr f,
                relCount_nil, acqCount_nil, ha, hr, h2, true_and]
              split_ifs <;> omega

/-- Running the loop from any state satisfying the invariant keeps it (if
the script runs out) or ends with every acquired reference released exactly
once (if the connection terminates). -/
theorem runFrom_inv (cfg : HandlerCfg) :
    ∀ (script : List CycleEvent) (st : HState) (tr : List Ev), FwdInv tr st →
      (((runFrom cfg st script).2 = none →
          ReleasedOnce (tr ++ (runFrom cfg st script).1)) ∧
        (∀ f, acqCount (tr ++ (runFrom cfg st script).1) f ≤ 1 ∧
          relCount (tr ++ (runFrom cfg st script).1) f ≤
            acqCount (tr ++ (runFrom cfg st script).1) f)) := by
  intro script
  induction script with
  | nil =>
      intro st tr h
      refine ⟨fun h2 => absurd h2 (by simp [runFrom]), fun f => ?_⟩
      have := FwdInv_le tr st h f
      simpa [runFrom] using this
  | cons ev evs ih =>
      intro st tr h
      have hstep := cycle_inv cfg st ev tr h
      rcases hc2 : (cycle cfg st ev).2 with _ | st2
      · have hrun : runFrom cfg st (ev :: evs) = ((cycle cfg st ev).1, none) := by
          rw [runFrom]
          rcases hcy : cycle cfg st ev with ⟨tr0, r0⟩
          rw [hcy] at hc2
          simp at hc2
          rw [hc2]
        rw [hrun]
        dsimp only
        have hro := hstep.2 hc2
        refine ⟨fun _ => hro, fun f => ?_⟩
        have := hro f
        omega
      · have hinv2 := hstep.1 st2 hc2
        have hrun : runFrom cfg st (ev :: evs) =
            ((cycle cfg st ev).1 ++ (runFrom cfg st2 evs).1,
              (runFrom cfg st2 evs).2) := by
          rw [runFrom]
          rcases hcy : cycle cfg st ev with ⟨tr0, r0⟩
          rw [hcy] at hc2
          simp at hc2
          rw [hc2]
        rw [hrun]
        have ih2 := ih st2 (tr ++ (cycle cfg st ev).1) hinv2
        refine ⟨fun h2 => ?_, fun f => ?_⟩
        · have := ih2.1 h2
          simpa [List.append_assoc] using this
        · have := ih2.2 f
          simpa [List.append_assoc] using this

/-- Claim C1 (as stated) is false on the code: after a fully successful
cycle the handler keeps its forwarder reference for the next cycle, so a
reference that was acquired is released zero times in a cycle that exits
via the success path.  Concretely: the run consisting of one successful
cycle acquires reference 0 once and releases it zero times, and the
connection is still open. -/
theorem c1_counterexample :
    acqCount (handleRun ⟨7, false⟩
        [⟨DecodeRes.ok 2, false, none, none, none⟩]).1 0 = 1 ∧
    relCount (handleRun ⟨7, false⟩
        [⟨DecodeRes.ok 2, false, none, none, none⟩]).1 0 = 0 ∧
    (handleRun ⟨7, false⟩
        [⟨DecodeRes.ok 2, false, none, none, none⟩]).2 =
      some ⟨[2, 3, 4, 5], 0, 1, 6⟩ := by
  refine ⟨?_, ?_, ?_⟩ <;> decide

/-- Claim C1, amended: over any run of the handler (any behaviour of the
external collaborators), every forwarder reference is acquired at most
once, is never released more often than acquired, and — whenever the run
terminates the connection (on any of the exit paths: decode error, forward
error, encode error, flush error, topology-closed with the close policy) —
every acquired reference has been released exactly once over the run. -/
theorem c1_release_exactly_once (cfg : HandlerCfg) (script : List CycleEvent) :
    (∀ f, acqCount (handleRun cfg script).1 f ≤ 1 ∧
      relCount (handleRun cfg script).1 f ≤ acqCount (handleRun cfg script).1 f) ∧
    ((handleRun cfg script).2 = none →
      ∀ f, relCount (handleRun cfg script).1 f = acqCount (handleRun cfg script).1 f) := by
  have h := runFrom_inv cfg script (handleStart cfg).2 (handleStart cfg).1
    (handleStart_inv cfg)
  have he1 : (handleRun cfg script).1 =
      (handleStart cfg).1 ++ (runFrom cfg (handleStart cfg).2 script).1 := rfl
  have he2 : (handleRun cfg script).2 =
      (runFrom cfg (handleStart cfg).2 script).2 := rfl
  rw [he1, he2]
  exact ⟨h.2, fun h2 f => (h.1 h2 f).2⟩

/-- Witness for the amended claim C1 at a concrete run: one successful
cycle followed by a decode error terminates the connection, and both
acquired references (the reference count is per acquisition) are released
exactly once. -/
theorem c1_release_exactly_once_witness :
    relCount (handleRun ⟨7, false⟩
      [⟨DecodeRes.ok 2, false, none, none, none⟩,
       ⟨DecodeRes.err 3, false, none, none, none⟩]).1 0 =
    acqCount (handleRun ⟨7, false⟩
      [⟨DecodeRes.ok 2, false, none, none, none⟩,
       ⟨DecodeRes.err 3, false, none, none, none⟩]).1 0 :=
  (c1_release_exactly_once ⟨7, false⟩
    [⟨DecodeRes.ok 2, false, none, none, none⟩,
     ⟨DecodeRes.err 3, false, none, none, none⟩]).2 (by decide) 0

/-! ### Allocator capacity -/

/-- Characterisation of the capacity decided by `allocMaxConcurrent`. -/
theorem alloc_length (msgs : List Nat) (lc n : Nat) :
    (allocMaxConcurrent msgs lc n).2.1.length =
      if msgs.length = 0 then concurrent
      else if msgs.length < maxConcurrent ∧ msgs.length = lc then
        msgs.length * concurrent
      else msgs.length := by
  by_cases h0 : msgs.length = 0
  · rw [if_pos h0]
    have ha : allocSize msgs.length lc = concurrent := by
      unfold allocSize
      rw [if_pos h0]
    simp [allocMaxConcurrent, ha, concurrent]
  · by_cases h1 : msgs.length < maxConcurrent ∧ msgs.length = lc
    · rw [if_neg h0, if_pos h1]
      have ha : allocSize msgs.length lc = msgs.length * concurrent := by
        unfold allocSize
        rw [if_neg h0, if_pos h1]
      have hpos : 0 < msgs.length * concurrent := by
        unfold concurrent
        omega
      simp [allocMaxConcurrent, ha, hpos]
    · rw [if_neg h0, if_neg h1]
      have ha : allocSize msgs.length lc = 0 := by
        unfold allocSize
        rw [if_neg h0, if_neg h1]
      simp [allocMaxConcurrent, ha]

/-- The next state of a non-terminating iteration draws its batch from
`allocMaxConcurrent` applied to the old batch and the decoded count. -/
theorem cycle_some_batch (cfg : HandlerCfg) (st : HState) (ev : CycleEvent)
    (st2 : HState) (h : (cycle cfg st ev).2 = some st2) :
    ∃ k, st2.batch =
      (allocMaxConcurrent st.batch (st.batch.take k).length st.nextMsg).2.1 := by
  rcases ev with ⟨dec, fc, fe, ee, fl⟩
  cases dec with
  | err e => simp [cycle] at h
  | ok k =>
      cases fc with
      | true =>
          rcases cfg with ⟨cid, cw⟩
          cases cw with
          | true => simp [cycle] at h
          | false => exact ⟨k, (cycleForward_some _ _ _ _ _ _ _ h).2.2⟩
      | false => exact ⟨k, (cycleForward_some _ _ _ _ _ _ _ h).2.2⟩

/-- Batch capacities occurring in a run: powers of two between
`2 = concurrent` and `1024 = maxConcurrent`. -/
def GoodCap (c : Nat) : Prop := ∃ j, 1 ≤ j ∧ j ≤ 10 ∧ c = 2 ^ j

/-- The loop states reachable from the start of `handle`, over all
behaviours of the external collaborators. -/
inductive Reaches (cfg : HandlerCfg) : HState → Prop
  | init : Reaches cfg (handleStart cfg).2
  | step {st st2 : HState} {ev : CycleEvent} : Reaches cfg st →
      (cycle cfg st ev).2 = some st2 → Reaches cfg st2

theorem goodCap_step (cfg : HandlerCfg) (st : HState) (ev : CycleEvent)
    (st2 : HState) (hgood : GoodCap st.batch.length)
    (h : (cycle cfg st ev).2 = some st2) : GoodCap st2.batch.length := by
  obtain ⟨j, hj1, hj10, hj⟩ := hgood
  obtain ⟨k, hb⟩ := cycle_some_batch cfg st ev st2 h
  rw [hb, alloc_length]
  by_cases h0 : st.batch.length = 0
  · exact ⟨1, le_refl 1, by omega, by rw [if_pos h0]; rfl⟩
  · by_cases h1 : st.batch.length < maxConcurrent ∧
        st.batch.length = (st.batch.take k).length
    · refine ⟨j + 1, by omega, ?_, ?_⟩
      · have hlt : (2 : Nat) ^ j < 2 ^ 10 := by
          rw [← hj]
          calc st.batch.length < maxConcurrent := h1.1
            _ = 2 ^ 10 := by unfold maxConcurrent; norm_num
        have := (Nat.pow_lt_pow_iff_right (by norm_num : 1 < 2)).mp hlt
        omega
      · rw [if_neg h0, if_pos h1, hj, concurrent, pow_succ]
    · refine ⟨j, hj1, hj10, ?_⟩
      rw [if_neg h0, if_neg h1]
      exact hj

theorem goodCap_reaches (cfg : HandlerCfg) (st : HState)
    (h : Reaches cfg st) : GoodCap st.batch.length := by
  induction h with
  | init =>
      refine ⟨1, le_refl 1, by omega, ?_⟩
      rw [handleStart_eq]
      rfl
  | step hre hsome ih => exact goodCap_step _ _ _ _ ih hsome

theorem goodCap_le (c : Nat) (h : GoodCap c) : c ≤ maxConcurrent := by
  obtain ⟨j, _, hj10, hj⟩ := h
  rw [hj]
  calc (2 : Nat) ^ j ≤ 2 ^ 10 := Nat.pow_le_pow_right (by norm_num) hj10
    _ = maxConcurrent := by unfold maxConcurrent; norm_num

/-- Claim C5: the first cycle's batch has the configured base capacity
(`concurrent = 2`); along every run, no batch's capacity ever exceeds the
configured maximum (`maxConcurrent = 1024`); the allocator's capacity is
`lm * concurrent` exactly when the previous capacity `lm` was below the
maximum and equal to the previous decoded count, and in every other
(non-startup) case the existing batch is reused unchanged, with no pool
traffic. -/
theorem c5_allocator (cfg : HandlerCfg) :
    ((handleStart cfg).2.batch.length = concurrent) ∧
    (∀ st, Reaches cfg st → st.batch.length ≤ maxConcurrent) ∧
    (∀ msgs lc n, (allocMaxConcurrent msgs lc n).2.1.length =
      if msgs.length = 0 then concurrent
      else if msgs.length < maxConcurrent ∧ msgs.length = lc then
        msgs.length * concurrent
      else msgs.length) ∧
    (∀ msgs lc n, ¬msgs.length = 0 →
      ¬(msgs.length < maxConcurrent ∧ msgs.length = lc) →
      allocMaxConcurrent msgs lc n = ([], msgs, n)) := by
  refine ⟨by rw [handleStart_eq]; rfl, fun st h => goodCap_le _ (goodCap_reaches cfg st h),
    alloc_length, fun msgs lc n h0 h1 => ?_⟩
  unfold allocMaxConcurrent allocSize
  simp [h0, h1]

/-- Witness for claim C5: the initial state is reachable and within the
cap, and a partially consumed batch (capacity 2, decoded count 1) is
reused unchanged. -/
theorem c5_allocator_witness :
    (handleStart ⟨0, false⟩).2.batch.length ≤ maxConcurrent ∧
    allocMaxConcurrent [5, 6] 1 7 = ([], [5, 6], 7) :=
  ⟨(c5_allocator ⟨0, false⟩).2.1 _ Reaches.init,
   (c5_allocator ⟨0, false⟩).2.2.2 [5, 6] 1 7 (by decide) (by decide)⟩

/-! ### Exact traces of the loop branches -/

/-- Decode failure: `deferHandle(messages, err)` then `forwarder.Release()`. -/
theorem cycle_decode_err_eq (cfg : HandlerCfg) (st : HState) (e : Nat)
    (fc : Bool) (fe : Option Nat) (ee : Option (Nat × Nat)) (fl : Option Nat) :
    cycle cfg st ⟨DecodeRes.err e, fc, fe, ee, fl⟩ =
      (deferTrace st.batch (some e) ++ [Ev.release st.forwarder], none) := rfl

/-- Forwarder observed `Closed` with `closeWhenChange` set: release the
stale reference, then `deferHandle(messages, err)` with the nil decode
error. -/
theorem cycle_topology_close_eq (cid : Nat) (st : HState) (k : Nat)
    (fe : Option Nat) (ee : Option (Nat × Nat)) (fl : Option Nat) :
    cycle ⟨cid, true⟩ st ⟨DecodeRes.ok k, true, fe, ee, fl⟩ =
      ([Ev.release st.forwarder] ++ deferTrace st.batch none, none) := rfl

/-- Forward failure (forwarder observed `Open`). -/
theorem cycle_forward_err_eq (cfg : HandlerCfg) (st : HState) (k e : Nat)
    (ee : Option (Nat × Nat)) (fl : Option Nat) :
    cycle cfg st ⟨DecodeRes.ok k, false, some e, ee, fl⟩ =
      ([] ++ [Ev.forwardCall st.forwarder (st.batch.take k)] ++
        deferTrace st.batch (some e) ++ [Ev.release st.forwarder], none) := rfl

/-- Encode failure at index `i` of the decoded subsequence: the messages
before `i` are encoded, then a best-effort flush, then `deferHandle` and
the release. -/
theorem cycle_encode_err_eq (cfg : HandlerCfg) (st : HState) (k i e : Nat)
    (fl : Option Nat) (h : i < (st.batch.take k).length) :
    cycle cfg st ⟨DecodeRes.ok k, false, none, some (i, e), fl⟩ =
      ([] ++ [Ev.forwardCall st.forwarder (st.batch.take k)] ++
        ((st.batch.take k).take i).map Ev.encode ++ [Ev.flushAttempt] ++
        deferTrace st.batch (some e) ++ [Ev.release st.forwarder], none) := by
  have hc : cycle cfg st ⟨DecodeRes.ok k, false, none, some (i, e), fl⟩ =
      cycleForward st (st.batch.take k) ⟨DecodeRes.ok k, false, none, some (i, e), fl⟩
        [] st.forwarder st.nextFwd := rfl
  have he : encodeLoop (st.batch.take k) (some (i, e)) =
      (((st.batch.take k).take i).map Ev.encode, some e) := by
    have h2 := h
    simp only [List.length_take] at h2
    simp [encodeLoop, h]
    omega
  rw [hc]
  unfold cycleForward
  rw [he]

/-- Flush failure: all decoded messages were encoded first. -/
theorem cycle_flush_err_eq (cfg : HandlerCfg) (st : HState) (k e : Nat) :
    cycle cfg st ⟨DecodeRes.ok k, false, none, none, some e⟩ =
      ([] ++ [Ev.forwardCall st.forwarder (st.batch.take k)] ++
        (st.batch.take k).map Ev.encode ++
        deferTrace st.batch (some e) ++ [Ev.release st.forwarder], none) := rfl

/-- Fully successful cycle with the forwarder observed `Open`. -/
theorem cycle_success_eq (cfg : HandlerCfg) (st : HState) (k : Nat) :
    cycle cfg st ⟨DecodeRes.ok k, false, none, none, none⟩ =
      ([] ++ [Ev.forwardCall st.forwarder (st.batch.take k)] ++
        (st.batch.take k).map Ev.encode ++ [Ev.flushOk] ++
        (st.batch.take k).map Ev.reset ++
        (allocMaxConcurrent st.batch (st.batch.take k).length st.nextMsg).1,
       some ⟨(allocMaxConcurrent st.batch (st.batch.take k).length st.nextMsg).2.1,
         st.forwarder, st.nextFwd,
         (allocMaxConcurrent st.batch (st.batch.take k).length st.nextMsg).2.2⟩) := rfl

/-- Fully successful cycle after observing `Closed` with the
`closeWhenChange` policy unset: the stale reference is released, a fresh
forwarder for the same cluster is acquired, and the pending batch is
forwarded through it. -/
theorem cycle_reacquire_eq (cid : Nat) (st : HState) (k : Nat) :
    cycle ⟨cid, false⟩ st ⟨DecodeRes.ok k, true, none, none, none⟩ =
      ([Ev.release st.forwarder, Ev.acquire st.nextFwd cid] ++
        [Ev.forwardCall st.nextFwd (st.batch.take k)] ++
        (st.batch.take k).map Ev.encode ++ [Ev.flushOk] ++
        (st.batch.take k).map Ev.reset ++
        (allocMaxConcurrent st.batch (st.batch.take k).length st.nextMsg).1,
       some ⟨(allocMaxConcurrent st.batch (st.batch.take k).length st.nextMsg).2.1,
         st.nextFwd, st.nextFwd + 1,
         (allocMaxConcurrent st.batch (st.batch.take k).length st.nextMsg).2.2⟩) := rfl

/-! ### Trace extraction lemmas -/

/-- The `Forward` calls (forwarder and cluster of each acquisition). -/
def acqsOf (tr : List Ev) : List (Nat × Nat) :=
  tr.filterMap fun e => match e with
    | Ev.acquire f cid => some (f, cid)
    | _ => none

theorem extract_map_nil {α : Type} (f : Ev → Option α) (g : Nat → Ev)
    (h : ∀ m, f (g m) = none) (ms : List Nat) : (ms.map g).filterMap f = [] := by
  induction ms with
  | nil => rfl
  | cons a t ih => simp [List.filterMap_cons, h, ih]

theorem extract_alloc_nil {α : Type} (f : Ev → Option α)
    (h : ∀ b, f (Ev.putMsgs b) = none) (ms : List Nat) (lc n : Nat) :
    ((allocMaxConcurrent ms lc n).1).filterMap f = [] := by
  rcases allocMaxConcurrent_fst ms lc n with h2 | h2 <;>
    simp [h2, List.filterMap_cons, h]

theorem encodesOf_map_encode (ms : List Nat) : encodesOf (ms.map Ev.encode) = ms := by
  unfold encodesOf
  induction ms with
  | nil => rfl
  | cons a t ih => simp only [List.map_cons, List.filterMap_cons, ih]

theorem resetsOf_map_reset (ms : List Nat) : resetsOf (ms.map Ev.reset) = ms := by
  unfold resetsOf
  induction ms with
  | nil => rfl
  | cons a t ih => simp only [List.map_cons, List.filterMap_cons, ih]

theorem encodesOf_map_reset (ms : List Nat) : encodesOf (ms.map Ev.reset) = [] :=
  extract_map_nil _ _ (fun _ => rfl) ms

theorem resetsOf_map_encode (ms : List Nat) : resetsOf (ms.map Ev.encode) = [] :=
  extract_map_nil _ _ (fun _ => rfl) ms

theorem forwardedOf_map_encode (ms : List Nat) : forwardedOf (ms.map Ev.encode) = [] :=
  extract_map_nil _ _ (fun _ => rfl) ms

theorem forwardedOf_map_reset (ms : List Nat) : forwardedOf (ms.map Ev.reset) = [] :=
  extract_map_nil _ _ (fun _ => rfl) ms

theorem closesOf_map_encode (ms : List Nat) : closesOf (ms.map Ev.encode) = [] :=
  extract_map_nil _ _ (fun _ => rfl) ms

theorem acqsOf_map_encode (ms : List Nat) : acqsOf (ms.map Ev.encode) = [] :=
  extract_map_nil _ _ (fun _ => rfl) ms

theorem acqsOf_map_reset (ms : List Nat) : acqsOf (ms.map Ev.reset) = [] :=
  extract_map_nil _ _ (fun _ => rfl) ms

theorem encodesOf_alloc (ms : List Nat) (lc n : Nat) :
    encodesOf (allocMaxConcurrent ms lc n).1 = [] :=
  extract_alloc_nil _ (fun _ => rfl) ms lc n

theorem resetsOf_alloc (ms : List Nat) (lc n : Nat) :
    resetsOf (allocMaxConcurrent ms lc n).1 = [] :=
  extract_alloc_nil _ (fun _ => rfl) ms lc n

theorem forwardedOf_alloc (ms : List Nat) (lc n : Nat) :
    forwardedOf (allocMaxConcurrent ms lc n).1 = [] :=
  extract_alloc_nil _ (fun _ => rfl) ms lc n

theorem closesOf_alloc (ms : List Nat) (lc n : Nat) :
    closesOf (allocMaxConcurrent ms lc n).1 = [] :=
  extract_alloc_nil _ (fun _ => rfl) ms lc n

theorem acqsOf_alloc (ms : List Nat) (lc n : Nat) :
    acqsOf (allocMaxConcurrent ms lc n).1 = [] :=
  extract_alloc_nil _ (fun _ => rfl) ms lc n

theorem encodesOf_append (a b : List Ev) :
    encodesOf (a ++ b) = encodesOf a ++ encodesOf b := List.filterMap_append _ _ _

theorem forwardedOf_append (a b : List Ev) :
    forwardedOf (a ++ b) = forwardedOf a ++ forwardedOf b := List.filterMap_append _ _ _

theorem closesOf_append (a b : List Ev) :
    closesOf (a ++ b) = closesOf a ++ closesOf b := List.filterMap_append _ _ _

theorem resetsOf_append (a b : List Ev) :
    resetsOf (a ++ b) = resetsOf a ++ resetsOf b := List.filterMap_append _ _ _

theorem putsOf_append (a b : List Ev) :
    putsOf (a ++ b) = putsOf a ++ putsOf b := List.filterMap_append _ _ _

theorem acqsOf_append (a b : List Ev) :
    acqsOf (a ++ b) = acqsOf a ++ acqsOf b := List.filterMap_append _ _ _

theorem closesOf_map_reset (ms : List Nat) : closesOf (ms.map Ev.reset) = [] :=
  extract_map_nil _ _ (fun _ => rfl) ms

theorem putsOf_map_encode (ms : List Nat) : putsOf (ms.map Ev.encode) = [] :=
  extract_map_nil _ _ (fun _ => rfl) ms

/-! ### The claims about the loop's branches -/

/-- Claim C4: on observing the forwarder `Closed` after a successful
decode — with the close-on-topology-change policy set, the handler closes
the connection and makes no `Forward` call for the pending batch; with the
policy unset, it acquires a new forwarder for the same cluster identity
and forwards the pending batch through it within the same cycle. -/
theorem c4_topology_closed_policy :
    (∀ (cid : Nat) (st : HState) (k : Nat) (fe : Option Nat)
        (ee : Option (Nat × Nat)) (fl : Option Nat),
      cycle ⟨cid, true⟩ st ⟨DecodeRes.ok k, true, fe, ee, fl⟩ =
        ([Ev.release st.forwarder] ++ deferTrace st.batch none, none) ∧
      forwardedOf (cycle ⟨cid, true⟩ st ⟨DecodeRes.ok k, true, fe, ee, fl⟩).1 = []) ∧
    (∀ (cid : Nat) (st : HState) (k : Nat),
      acqsOf (cycle ⟨cid, false⟩ st ⟨DecodeRes.ok k, true, none, none, none⟩).1 =
        [(st.nextFwd, cid)] ∧
      forwardedOf (cycle ⟨cid, false⟩ st ⟨DecodeRes.ok k, true, none, none, none⟩).1 =
        [(st.nextFwd, st.batch.take k)] ∧
      (cycle ⟨cid, false⟩ st ⟨DecodeRes.ok k, true, none, none, none⟩).2 =
        some ⟨(allocMaxConcurrent st.batch (st.batch.take k).length st.nextMsg).2.1,
          st.nextFwd, st.nextFwd + 1,
          (allocMaxConcurrent st.batch (st.batch.take k).length st.nextMsg).2.2⟩) := by
  constructor
  · intro cid st k fe ee fl
    refine ⟨cycle_topology_close_eq cid st k fe ee fl, ?_⟩
    rw [cycle_topology_close_eq]
    rfl
  · intro cid st k
    refine ⟨?_, ?_, ?_⟩
    · rw [cycle_reacquire_eq]
      simp only [acqsOf_append, acqsOf_map_encode, acqsOf_map_reset, acqsOf_alloc]
      rfl
    · rw [cycle_reacquire_eq]
      simp only [forwardedOf_append, forwardedOf_map_encode, forwardedOf_map_reset,
        forwardedOf_alloc]
      rfl
    · rw [cycle_reacquire_eq]

/-- Claim C6: on a decode, forward, encode or flush failure, the cycle
terminates with exactly the events: (for an encode failure only, a
best-effort flush of the already-encoded prefix) then `RemoveConnection`,
the batch returned to the pool, `closeWithError` with the triggering
error, and the release of the forwarder — and once a cycle terminates,
the rest of the script is never run (no further dispatch). -/
theorem c6_failure_paths :
    (∀ (cfg : HandlerCfg) (st : HState) (e : Nat) (fc : Bool)
        (fe : Option Nat) (ee : Option (Nat × Nat)) (fl : Option Nat),
      cycle cfg st ⟨DecodeRes.err e, fc, fe, ee, fl⟩ =
        (deferTrace st.batch (some e) ++ [Ev.release st.forwarder], none)) ∧
    (∀ (cfg : HandlerCfg) (st : HState) (k e : Nat)
        (ee : Option (Nat × Nat)) (fl : Option Nat),
      cycle cfg st ⟨DecodeRes.ok k, false, some e, ee, fl⟩ =
        ([] ++ [Ev.forwardCall st.forwarder (st.batch.take k)] ++
          deferTrace st.batch (some e) ++ [Ev.release st.forwarder], none)) ∧
    (∀ (cfg : HandlerCfg) (st : HState) (k i e : Nat) (fl : Option Nat),
      i < (st.batch.take k).length →
      cycle cfg st ⟨DecodeRes.ok k, false, none, some (i, e), fl⟩ =
        ([] ++ [Ev.forwardCall st.forwarder (st.batch.take k)] ++
          ((st.batch.take k).take i).map Ev.encode ++ [Ev.flushAttempt] ++
          deferTrace st.batch (some e) ++ [Ev.release st.forwarder], none)) ∧
    (∀ (cfg : HandlerCfg) (st : HState) (k e : Nat),
      cycle cfg st ⟨DecodeRes.ok k, false, none, none, some e⟩ =
        ([] ++ [Ev.forwardCall st.forwarder (st.batch.take k)] ++
          (st.batch.take k).map Ev.encode ++
          deferTrace st.batch (some e) ++ [Ev.release st.forwarder], none)) ∧
    (∀ (cfg : HandlerCfg) (st : HState) (ev : CycleEvent) (evs : List CycleEvent),
      (cycle cfg st ev).2 = none →
      runFrom cfg st (ev :: evs) = ((cycle cfg st ev).1, none)) := by
  refine ⟨cycle_decode_err_eq, cycle_forward_err_eq, cycle_encode_err_eq,
    cycle_flush_err_eq, ?_⟩
  intro cfg st ev evs h
  rw [runFrom]
  rcases hcy : cycle cfg st ev with ⟨tr0, r0⟩
  rw [hcy] at h
  simp at h
  subst h
  rfl

/-- Witness for claim C6 at a concrete encode failure: batch `[0, 1]`,
both messages decoded, encode fails on the second message with error 5. -/
theorem c6_failure_paths_witness :
    cycle ⟨0, false⟩ ⟨[0, 1], 0, 1, 2⟩
        ⟨DecodeRes.ok 2, false, none, some (1, 5), none⟩ =
      ([] ++ [Ev.forwardCall 0 (([0, 1] : List Nat).take 2)] ++
        ((([0, 1] : List Nat).take 2).take 1).map Ev.encode ++ [Ev.flushAttempt] ++
        deferTrace [0, 1] (some 5) ++ [Ev.release 0], none) :=
  c6_failure_paths.2.2.1 ⟨0, false⟩ ⟨[0, 1], 0, 1, 2⟩ 2 1 5 none (by decide)

/-- Claim C7: in a fully successful cycle, the responses encoded (and then
flushed by the single successful flush) are exactly the decoded messages,
in decode order, and their count equals the count of messages forwarded;
no close happens. -/
theorem c7_response_order (cfg : HandlerCfg) (st : HState) (k : Nat) :
    encodesOf (cycle cfg st ⟨DecodeRes.ok k, false, none, none, none⟩).1 =
      st.batch.take k ∧
    forwardedOf (cycle cfg st ⟨DecodeRes.ok k, false, none, none, none⟩).1 =
      [(st.forwarder, st.batch.take k)] ∧
    (encodesOf (cycle cfg st ⟨DecodeRes.ok k, false, none, none, none⟩).1).length =
      (st.batch.take k).length ∧
    Ev.flushOk ∈ (cycle cfg st ⟨DecodeRes.ok k, false, none, none, none⟩).1 ∧
    closesOf (cycle cfg st ⟨DecodeRes.ok k, false, none, none, none⟩).1 = [] := by
  have h1 : encodesOf (cycle cfg st ⟨DecodeRes.ok k, false, none, none, none⟩).1 =
      st.batch.take k := by
    rw [cycle_success_eq]
    simp only [encodesOf_append, encodesOf_map_encode, encodesOf_map_reset,
      encodesOf_alloc]
    simp [encodesOf]
  refine ⟨h1, ?_, by rw [h1], ?_, ?_⟩
  · rw [cycle_success_eq]
    simp only [forwardedOf_append, forwardedOf_map_encode, forwardedOf_map_reset,
      forwardedOf_alloc]
    rfl
  · rw [cycle_success_eq]
    simp
  · rw [cycle_success_eq]
    simp only [closesOf_append, closesOf_map_encode, closesOf_map_reset,
      closesOf_alloc]
    rfl

/-- Claim C9, amended: disposal is asymmetric, but on the success path the
handler resets exactly the decoded messages (`msgs`), not every message of
the batch; on every failure path the batch goes back to the pool with no
reset at all. -/
theorem c9_reset_asymmetry :
    (∀ (cfg : HandlerCfg) (st : HState) (k : Nat),
      resetsOf (cycle cfg st ⟨DecodeRes.ok k, false, none, none, none⟩).1 =
        st.batch.take k) ∧
    (∀ (cfg : HandlerCfg) (st : HState) (e : Nat) (fc : Bool)
        (fe : Option Nat) (ee : Option (Nat × Nat)) (fl : Option Nat),
      resetsOf (cycle cfg st ⟨DecodeRes.err e, fc, fe, ee, fl⟩).1 = [] ∧
      putsOf (cycle cfg st ⟨DecodeRes.err e, fc, fe, ee, fl⟩).1 = [st.batch]) ∧
    (∀ (cfg : HandlerCfg) (st : HState) (k e : Nat)
        (ee : Option (Nat × Nat)) (fl : Option Nat),
      resetsOf (cycle cfg st ⟨DecodeRes.ok k, false, some e, ee, fl⟩).1 = [] ∧
      putsOf (cycle cfg st ⟨DecodeRes.ok k, false, some e, ee, fl⟩).1 = [st.batch]) ∧
    (∀ (cfg : HandlerCfg) (st : HState) (k i e : Nat) (fl : Option Nat),
      i < (st.batch.take k).length →
      resetsOf (cycle cfg st ⟨DecodeRes.ok k, false, none, some (i, e), fl⟩).1 = [] ∧
      putsOf (cycle cfg st ⟨DecodeRes.ok k, false, none, some (i, e), fl⟩).1 =
        [st.batch]) ∧
    (∀ (cfg : HandlerCfg) (st : HState) (k e : Nat),
      resetsOf (cycle cfg st ⟨DecodeRes.ok k, false, none, none, some e⟩).1 = [] ∧
      putsOf (cycle cfg st ⟨DecodeRes.ok k, false, none, none, some e⟩).1 =
        [st.batch]) := by
  refine ⟨?_, ?_, ?_, ?_, ?_⟩
  · intro cfg st k
    rw [cycle_success_eq]
    simp only [resetsOf_append, resetsOf_map_encode, resetsOf_map_reset,
      resetsOf_alloc]
    simp [resetsOf]
  · intro cfg st e fc fe ee fl
    rw [cycle_decode_err_eq]
    exact ⟨rfl, rfl⟩
  · intro cfg st k e ee fl
    rw [cycle_forward_err_eq]
    exact ⟨rfl, rfl⟩
  · intro cfg st k i e fl h
    rw [cycle_encode_err_eq cfg st k i e fl h]
    constructor
    · simp only [resetsOf_append, resetsOf_map_encode]
      rfl
    · simp only [putsOf_append, putsOf_map_encode]
      rfl
  · intro cfg st k e
    rw [cycle_flush_err_eq]
    constructor
    · simp only [resetsOf_append, resetsOf_map_encode]
      rfl
    · simp only [putsOf_append, putsOf_map_encode]
      rfl

/-- Witness for the amended claim C9 at a concrete encode failure. -/
theorem c9_reset_asymmetry_witness :
    resetsOf (cycle ⟨0, false⟩ ⟨[0, 1], 0, 1, 2⟩
      ⟨DecodeRes.ok 2, false, none, some (0, 4), none⟩).1 = [] ∧
    putsOf (cycle ⟨0, false⟩ ⟨[0, 1], 0, 1, 2⟩
      ⟨DecodeRes.ok 2, false, none, some (0, 4), none⟩).1 = [[0, 1]] :=
  c9_reset_asymmetry.2.2.2.1 ⟨0, false⟩ ⟨[0, 1], 0, 1, 2⟩ 2 0 4 none (by decide)

/-- Claim C9 (as stated) is false on the code: with batch `[0, 1]` and a
partial decode of one message, the fully successful cycle resets only the
decoded message `0`; message `1` remains in the reused batch without
having been reset in this cycle. -/
theorem c9_counterexample :
    (cycle ⟨0, false⟩ ⟨[0, 1], 0, 1, 2⟩
        ⟨DecodeRes.ok 1, false, none, none, none⟩).2 =
      some ⟨[0, 1], 0, 1, 2⟩ ∧
    (1 : Nat) ∈ (⟨[0, 1], 0, 1, 2⟩ : HState).batch ∧
    resetsOf (cycle ⟨0, false⟩ ⟨[0, 1], 0, 1, 2⟩
      ⟨DecodeRes.ok 1, false, none, none, none⟩).1 = [0] := by
  refine ⟨?_, ?_, ?_⟩ <;> decide

/-- Claim C10: the topology-closed close with the policy set records the
nil error (`closeWithError(nil)`), while every other close path records
the triggering error. -/
theorem c10_close_error_values :
    (∀ (cid : Nat) (st : HState) (k : Nat) (fe : Option Nat)
        (ee : Option (Nat × Nat)) (fl : Option Nat),
      closesOf (cycle ⟨cid, true⟩ st ⟨DecodeRes.ok k, true, fe, ee, fl⟩).1 =
        [none]) ∧
    (∀ (cfg : HandlerCfg) (st : HState) (e : Nat) (fc : Bool)
        (fe : Option Nat) (ee : Option (Nat × Nat)) (fl : Option Nat),
      closesOf (cycle cfg st ⟨DecodeRes.err e, fc, fe, ee, fl⟩).1 = [some e]) ∧
    (∀ (cfg : HandlerCfg) (st : HState) (k e : Nat)
        (ee : Option (Nat × Nat)) (fl : Option Nat),
      closesOf (cycle cfg st ⟨DecodeRes.ok k, false, some e, ee, fl⟩).1 =
        [some e]) ∧
    (∀ (cfg : HandlerCfg) (st : HState) (k i e : Nat) (fl : Option Nat),
      i < (st.batch.take k).length →
      closesOf (cycle cfg st ⟨DecodeRes.ok k, false, none, some (i, e), fl⟩).1 =
        [some e]) ∧
    (∀ (cfg : HandlerCfg) (st : HState) (k e : Nat),
      closesOf (cycle cfg st ⟨DecodeRes.ok k, false, none, none, some e⟩).1 =
        [some e]) := by
  refine ⟨?_, ?_, ?_, ?_, ?_⟩
  · intro cid st k fe ee fl
    rw [cycle_topology_close_eq]
    rfl
  · intro cfg st e fc fe ee fl
    rw [cycle_decode_err_eq]
    rfl
  · intro cfg st k e ee fl
    rw [cycle_forward_err_eq]
    rfl
  · intro cfg st k i e fl h
    rw [cycle_encode_err_eq cfg st k i e fl h]
    simp only [closesOf_append, closesOf_map_encode]
    rfl
  · intro cfg st k e
    rw [cycle_flush_err_eq]
    simp only [closesOf_append, closesOf_map_encode]
    rfl

/-- Witness for claim C10 at a concrete encode failure. -/
theorem c10_close_error_values_witness :
    closesOf (cycle ⟨0, false⟩ ⟨[0, 1], 0, 1, 2⟩
      ⟨DecodeRes.ok 2, false, none, some (1, 8), none⟩).1 = [some 8] :=
  c10_close_error_values.2.2.2.1 ⟨0, false⟩ ⟨[0, 1], 0, 1, 2⟩ 2 1 8 none (by decide)

/-! ### Close path and construction -/

/-- Claim C2: closing is idempotent.  The compare-and-swap on `closed`
serialises concurrent invocations, so any interleaving is a sequential
composition: the first close from `Opening` records its error and
decrements the counter once, and every later close (with any error) leaves
the whole state — recorded error and counter included — unchanged. -/
theorem c2_close_idempotent (st : CloserState) (e1 e2 e3 : Option Nat) :
    (st.closed = false →
      (closeWithError st e1).closed = true ∧
      (closeWithError st e1).err = e1 ∧
      (closeWithError st e1).conns = st.conns - 1 ∧
      closeWithError (closeWithError st e1) e2 = closeWithError st e1) ∧
    (st.closed = true → closeWithError st e3 = st) := by
  constructor
  · intro h
    simp [closeWithError, h]
  · intro h
    simp [closeWithError, h]

/-- Witness for claim C2: a first close from `Opening` with error 4
records 4 and decrements; a second close with error 9 changes nothing. -/
theorem c2_close_idempotent_witness :
    (closeWithError ⟨false, none, 5, false, 0⟩ (some 4)).closed = true ∧
    (closeWithError ⟨false, none, 5, false, 0⟩ (some 4)).err = some 4 ∧
    (closeWithError ⟨false, none, 5, false, 0⟩ (some 4)).conns = (5 : Int) - 1 ∧
    closeWithError (closeWithError ⟨false, none, 5, false, 0⟩ (some 4)) (some 9) =
      closeWithError ⟨false, none, 5, false, 0⟩ (some 4) :=
  (c2_close_idempotent ⟨false, none, 5, false, 0⟩ (some 4) (some 9) none).1 (by decide)

/-- Claim C3, amended: on the first successful `Opening → Closed`
transition, `closeWithError` records the error, closes the raw connection,
decrements the open-connection counter and emits the telemetry decrement,
and none of these happen on a later close attempt; but registry
deregistration (`RemoveConnection`) is performed unconditionally by
`deferHandle`, outside the transition guard, so it is not restricted to
the first transition. -/
theorem c3_close_transition_effects (st : CloserState) (batch : List Nat)
    (e : Option Nat) :
    (st.closed = false →
      (closeWithError st e).closed = true ∧
      (closeWithError st e).err = e ∧
      (closeWithError st e).conns = st.conns - 1 ∧
      (closeWithError st e).connClosed = true ∧
      (closeWithError st e).promDecr = st.promDecr + 1) ∧
    (st.closed = true → closeWithError st e = st) ∧
    (deferHandle st batch e).1 = [Ev.removeConn, Ev.putMsgs batch] ∧
    (deferHandle st batch e).2 = closeWithError st e := by
  refine ⟨fun h => ?_, fun h => ?_, rfl, rfl⟩
  · simp [closeWithError, h]
  · simp [closeWithError, h]

/-- Witness for the amended claim C3 at a concrete first transition. -/
theorem c3_close_transition_effects_witness :
    (closeWithError ⟨false, none, 2, false, 0⟩ (some 6)).err = some 6 :=
  ((c3_close_transition_effects ⟨false, none, 2, false, 0⟩ [] (some 6)).1
    (by decide)).2.1

/-- Claim C3 (as stated) is false on the code: `RemoveConnection` lives in
`deferHandle`, outside the compare-and-swap guard.  On a handler that is
already `Closed` (a later close attempt), `deferHandle` still performs the
registry deregistration even though no transition succeeds and no other
close effect happens. -/
theorem c3_counterexample :
    Ev.removeConn ∈ (deferHandle ⟨true, some 7, 3, true, 1⟩ [0] (some 9)).1 ∧
    (deferHandle ⟨true, some 7, 3, true, 1⟩ [0] (some 9)).2 =
      ⟨true, some 7, 3, true, 1⟩ := by
  refine ⟨?_, ?_⟩ <;> decide

/-- Claim C8: constructing a handler with an unsupported cache-protocol
kind fails with `ErrNoSupportCacheType` (the Go code panics with that
value before reaching `prom.ConnIncr`, modelled as `Except.error`), so no
handler exists for any `Handle()` call and the connection counter is never
incremented. -/
theorem c8_unsupported_cache_type (s : String) :
    NewHandler (CacheType.unknownKind s) =
      ([], Except.error ErrNoSupportCacheType) := rfl

end Overlord

